import Mathlib

/-!
Verification of the `playwright-mcp` HTML-source / request-info tools.

JavaScript strings are modelled as `List Char` (one element per UTF-16 code
unit of the source-level string; none of the verified properties depend on
surrogate pairs).  Numbers that the source manipulates as JS numbers holding
integers are modelled as `Int` (or `Nat` where the source value is always a
length).  Fallible code is modelled with `Option`, `none` standing for a
thrown exception.
-/

namespace PlaywrightMcp

/-! ## Paginator (src/tools/htmlsource.ts, handle, pagination block)

The source computes, for the fully filtered string `htmlSource`:

    const totalLength = htmlSource.length;
    if (maxLength !== undefined) {
      const endPos = Math.min(offset + maxLength, totalLength);
      resultContent = htmlSource.slice(offset, endPos);
      actualOffset = offset; actualLength = resultContent.length;
      hasMore = endPos < totalLength;
    } else {
      resultContent = offset > 0 ? htmlSource.slice(offset) : htmlSource;
      actualOffset = offset; actualLength = resultContent.length;
      hasMore = false;
    }
-/

/-- Resolve one index argument of `String.prototype.slice` against a string of
length `len`: negative indices count from the end (clamped at 0), nonnegative
ones are clamped at `len`. -/
def sliceIndex (len : Nat) (i : Int) : Nat :=
  if i < 0 then ((len : Int) + i).toNat else min i.toNat len

/-- JavaScript `s.slice(start, stop)` on a string modelled as `List Char`. -/
def jsSlice (s : List Char) (start stop : Int) : List Char :=
  (s.take (sliceIndex s.length stop)).drop (sliceIndex s.length start)

/-- JavaScript `s.slice(start)` (one-argument form). -/
def jsSliceFrom (s : List Char) (start : Int) : List Char :=
  s.drop (sliceIndex s.length start)

/-- The `HtmlSourceResponse` record built by the pagination block. -/
structure ExtractionResult where
  content : List Char
  totalLength : Nat
  hasMore : Bool
  actualOffset : Int
  actualLength : Nat
  deriving Repr, DecidableEq

/-- The pagination block of `getHtmlSource.handle`, applied to the fully
filtered string.  `maxLength = none` models an omitted `maxLength` parameter. -/
def paginate (htmlSource : List Char) (offset : Int) (maxLength : Option Int) :
    ExtractionResult :=
  let totalLength := htmlSource.length
  match maxLength with
  | some m =>
    let endPos : Int := min (offset + m) (totalLength : Int)
    let resultContent := jsSlice htmlSource offset endPos
    { content := resultContent
      totalLength := totalLength
      hasMore := decide (endPos < (totalLength : Int))
      actualOffset := offset
      actualLength := resultContent.length }
  | none =>
    let resultContent := if offset > 0 then jsSliceFrom htmlSource offset else htmlSource
    { content := resultContent
      totalLength := totalLength
      hasMore := false
      actualOffset := offset
      actualLength := resultContent.length }

/-- Claim C1, counterexample: with `maxLength` supplied and an offset beyond
`totalLength` (here the 5-character string `"abcde"`, `offset = 10`,
`maxLength = 3`), the response echoes `actualOffset = 10` with
`actualLength = 0`, so `actualOffset + actualLength = 10 > 5 = totalLength`,
contradicting the claimed invariant `actualOffset + actualLength <= totalLength`
"for any offset, including offsets beyond totalLength". -/
theorem paginate_beyond_total_cex :
    ¬ ((paginate "abcde".data 10 (some 3)).actualOffset
        + ((paginate "abcde".data 10 (some 3)).actualLength : Int)
        ≤ ((paginate "abcde".data 10 (some 3)).totalLength : Int)) := by
  decide

/-- Claim C1 (amended): for every extraction call, `actualLength` equals the
length of `content`; when `maxLength` is supplied and `0 ≤ offset`,
`hasMore` holds exactly when `actualOffset + actualLength < totalLength`, and
the bound `actualOffset + actualLength ≤ totalLength` additionally requires
`offset ≤ totalLength` (offsets beyond `totalLength` are echoed back verbatim
and violate it); when `maxLength` is omitted, `hasMore` is `false`
unconditionally. -/
theorem paginate_invariants (htmlSource : List Char) (offset m : Int) :
    ((paginate htmlSource offset (some m)).actualLength
        = (paginate htmlSource offset (some m)).content.length
      ∧ (paginate htmlSource offset none).actualLength
        = (paginate htmlSource offset none).content.length)
    ∧ (0 ≤ offset → 0 ≤ m →
        ((paginate htmlSource offset (some m)).hasMore = true ↔
          (paginate htmlSource offset (some m)).actualOffset
            + ((paginate htmlSource offset (some m)).actualLength : Int)
            < ((paginate htmlSource offset (some m)).totalLength : Int)))
    ∧ (0 ≤ offset → offset ≤ (htmlSource.length : Int) → 0 ≤ m →
        (paginate htmlSource offset (some m)).actualOffset
          + ((paginate htmlSource offset (some m)).actualLength : Int)
          ≤ ((paginate htmlSource offset (some m)).totalLength : Int))
    ∧ (paginate htmlSource offset none).hasMore = false := by
  refine ⟨⟨rfl, rfl⟩, ?_, ?_, rfl⟩
  · intro hoff hm
    simp only [paginate, jsSlice, sliceIndex, List.length_drop, List.length_take,
      decide_eq_true_eq]
    split <;> split <;> omega
  · intro hoff hlen hm
    simp only [paginate, jsSlice, sliceIndex, List.length_drop, List.length_take]
    split <;> split <;> omega

/-- Witness for `paginate_invariants` at `"abcde"`, `offset = 2`, `m = 2`. -/
theorem paginate_invariants_witness :
    ((paginate "abcde".data 2 (some 2)).hasMore = true ↔
      (paginate "abcde".data 2 (some 2)).actualOffset
        + ((paginate "abcde".data 2 (some 2)).actualLength : Int)
        < ((paginate "abcde".data 2 (some 2)).totalLength : Int))
    ∧ (paginate "abcde".data 2 (some 2)).actualOffset
        + ((paginate "abcde".data 2 (some 2)).actualLength : Int)
        ≤ ((paginate "abcde".data 2 (some 2)).totalLength : Int) :=
  ⟨(paginate_invariants "abcde".data 2 2).2.1 (by decide) (by decide),
   (paginate_invariants "abcde".data 2 2).2.2.1 (by decide) (by decide) (by decide)⟩

/-- Claim C6, counterexample: on the 5-character string `"abcde"`, calling the
paginator with `offset = -2`, `maxLength = 1` returns `"d"` — the substring
taken relative to the END of the string (JavaScript negative-slice wrapping) —
which differs from clamping the offset to 0 (which would return `"a"`), and no
rejection path exists (`paginate` is total).  This contradicts the claim that
negative offsets are rejected or clamped and never silently wrap. -/
theorem paginate_negative_offset_cex :
    (paginate "abcde".data (-2) (some 1)).content = "d".data
    ∧ (paginate "abcde".data (-2) (some 1)).content
        ≠ (paginate "abcde".data 0 (some 1)).content := by
  decide

/-- Claim C6 (amended): when `maxLength` is omitted, a nonpositive offset is
effectively clamped to 0 (the whole string is returned); but when `maxLength`
is supplied, a negative offset is neither rejected nor clamped: it follows
JavaScript slice semantics and (when `-len ≤ offset` and
`offset + maxLength < 0`) yields the substring of length `maxLength` starting
at position `len + offset` — i.e. a window taken relative to the end of the
string. -/
theorem paginate_negative_offset_amended (S : List Char) (offset m : Int) :
    (offset ≤ 0 → (paginate S offset none).content = S)
    ∧ (offset < 0 → 0 ≤ (S.length : Int) + offset → 0 ≤ m → offset + m < 0 →
        (paginate S offset (some m)).content
          = (S.drop ((S.length : Int) + offset).toNat).take m.toNat) := by
  constructor
  · intro h
    simp only [paginate]
    rw [if_neg (by omega)]
  · intro h1 h2 h3 h4
    simp only [paginate, jsSlice, sliceIndex]
    rw [if_pos (by omega), if_pos (by omega), List.drop_take]
    congr 1
    omega

/-- Witness for `paginate_negative_offset_amended` at `"abcde"`,
`offset = -2`, `m = 1`. -/
theorem paginate_negative_offset_amended_witness :
    (paginate "abcde".data 0 none).content = "abcde".data
    ∧ (paginate "abcde".data (-2) (some 1)).content
        = ("abcde".data.drop (("abcde".data.length : Int) + (-2)).toNat).take (Int.toNat 1) :=
  ⟨(paginate_negative_offset_amended "abcde".data 0 1).1 (by decide),
   (paginate_negative_offset_amended "abcde".data (-2) 1).2 (by decide) (by decide)
     (by decide) (by decide)⟩

/-! ## Windowed reconstruction (claim C7) -/

/-- Concatenate the `content` fields of successive paginator windows of size
`M`, starting at `off` and advancing the offset by `M` while `hasMore` holds.
`fuel` bounds the number of windows (the theorems supply enough fuel for the
loop to finish on its own `hasMore = false` condition). -/
def collectWindows : Nat → List Char → Nat → Nat → List Char
  | 0, _, _, _ => []
  | fuel + 1, S, M, off =>
    let r := paginate S (off : Int) (some (M : Int))
    if r.hasMore then r.content ++ collectWindows fuel S M (off + M) else r.content

/-- Unfolding equation for one step of `collectWindows`. -/
theorem collectWindows_succ (fuel : Nat) (S : List Char) (M off : Nat) :
    collectWindows (fuel + 1) S M off
      = if (paginate S (off : Int) (some (M : Int))).hasMore
        then (paginate S (off : Int) (some (M : Int))).content
              ++ collectWindows fuel S M (off + M)
        else (paginate S (off : Int) (some (M : Int))).content := rfl

/-- For a natural offset and window size, the paginator's window is
`(S.drop off).take M` and `hasMore` signals exactly `off + M < S.length`. -/
theorem paginate_nat_window (S : List Char) (off M : Nat) :
    (paginate S (off : Int) (some (M : Int))).content = (S.drop off).take M
    ∧ ((paginate S (off : Int) (some (M : Int))).hasMore = true ↔ off + M < S.length) := by
  constructor
  · simp only [paginate, jsSlice, sliceIndex]
    rw [if_neg (by omega), if_neg (by omega)]
    simp only [Int.toNat_ofNat]
    have hb : (((off : Int) + (M : Int)) ⊓ ((S.length : Nat) : Int)).toNat
        = min (off + M) S.length := by omega
    rw [hb, Nat.min_eq_left (Nat.min_le_right _ _)]
    rcases Nat.le_total off S.length with hle | hge
    · rw [Nat.min_eq_left hle, List.drop_take, List.take_eq_take]
      simp only [List.length_drop]
      omega
    · rw [Nat.min_eq_right hge, List.drop_eq_nil_of_le hge]
      rw [List.take_nil, List.drop_eq_nil_of_le]
      simp only [List.length_take]
      omega
  · simp only [paginate, decide_eq_true_eq]
    omega

/-- Auxiliary induction for claim C7: with positive window size `M` and enough
fuel, collecting windows from offset `off` yields `S.drop off`. -/
theorem collectWindows_drop (S : List Char) (M : Nat) (hM : 0 < M) :
    ∀ fuel off, S.length < off + (fuel + 1) * M →
      collectWindows (fuel + 1) S M off = S.drop off := by
  intro fuel
  induction fuel with
  | zero =>
    intro off hfuel
    have h := paginate_nat_window S off M
    rw [collectWindows_succ, if_neg (by rw [h.2]; omega), h.1]
    rw [List.take_of_length_le]
    simp only [List.length_drop]
    omega
  | succ fuel ih =>
    intro off hfuel
    have h := paginate_nat_window S off M
    have hmul : (fuel + 1 + 1) * M = (fuel + 1) * M + M := by ring
    rw [collectWindows_succ, h.1]
    by_cases hmore : off + M < S.length
    · rw [if_pos (by rw [h.2]; omega)]
      rw [ih (off + M) (by rw [hmul] at hfuel; omega)]
      rw [← List.drop_drop]
      exact List.take_append_drop M (S.drop off)
    · rw [if_neg (by rw [h.2]; omega)]
      rw [List.take_of_length_le]
      simp only [List.length_drop]
      omega

/-- Claim C7 (confirmed): for every filtered string `S` and positive window
size `M`, concatenating the `content` fields of successive paginator windows
taken at offsets `0, M, 2M, ...` until `hasMore` is false reconstructs `S`
exactly. -/
theorem windows_reconstruct (S : List Char) (M : Nat) (hM : 0 < M) :
    collectWindows (S.length + 1) S M 0 = S := by
  have h1 : S.length + 1 ≤ (S.length + 1) * M := Nat.le_mul_of_pos_right _ hM
  rw [collectWindows_drop S M hM S.length 0 (by omega)]
  exact List.drop_zero S

/-- Witness for `windows_reconstruct` at `"abcde"` with window size 2. -/
theorem windows_reconstruct_witness :
    collectWindows ("abcde".data.length + 1) "abcde".data 2 0 = "abcde".data :=
  windows_reconstruct "abcde".data 2 (by decide)

/-! ## Cookie Matcher (network tool, `getRequestInfo.handle`, cookie filter)

Source:

    const cookiesForCurrentPage = cookies.filter(cookie => {
      const url = new URL(requestInfo.url || page.url());
      const cookieDomain = cookie.domain.startsWith('.') ? cookie.domain : '.' + cookie.domain;
      return url.hostname.endsWith(cookieDomain.slice(1)) || url.hostname === cookie.domain;
    });
-/

/-- One cookie as returned by the driver's cookie jar. -/
structure Cookie where
  name : List Char
  value : List Char
  domain : List Char
  path : List Char
  httpOnly : Bool
  secure : Bool
  deriving Repr, DecidableEq

/-- The filter predicate applied to each cookie of the jar: normalize the
domain to leading-dot form, then test `hostname.endsWith(cookieDomain.slice(1))
|| hostname === cookie.domain`. -/
def cookieMatches (hostname : List Char) (cookie : Cookie) : Bool :=
  let cookieDomain :=
    if cookie.domain.head? = some '.' then cookie.domain else '.' :: cookie.domain
  (cookieDomain.drop 1).isSuffixOf hostname || hostname = cookie.domain

/-- `cookies.filter(...)`: the matched cookies for the current page, in jar
order. -/
def cookiesForPage (hostname : List Char) (jar : List Cookie) : List Cookie :=
  jar.filter (cookieMatches hostname)

/-- The cookie's domain with a single leading dot removed, if present. -/
def stripLeadingDot (d : List Char) : List Char :=
  if d.head? = some '.' then d.drop 1 else d

/-- Claim C2, counterexample: the cookie with domain `example.com` IS matched
for the unrelated host `badexample.com` (the code suffix-tests the UNDOTTED
domain), although the host neither equals the raw domain nor ends with the
dotted form `.example.com` — contradicting the claimed "never an unrelated
host such as badexample.com". -/
theorem cookie_badexample_cex :
    cookieMatches "badexample.com".data
      ⟨"a".data, "1".data, "example.com".data, "/".data, false, false⟩ = true
    ∧ ("badexample.com".data ≠ "example.com".data)
    ∧ ("." ++ "example.com").data.isSuffixOf "badexample.com".data = false := by
  decide

/-- Claim C2 (amended): a cookie is included exactly when the URL's hostname
ends with the cookie's domain with any leading dot removed, or equals the raw
domain verbatim (so `example.com` and `.example.com` both match hosts
`example.com`, `a.example.com` — and also any host merely ending in the
undotted string, such as `badexample.com`); matching cookies are returned in
jar order (the matched sequence is a sublist of the jar produced by
`List.filter`). -/
theorem cookie_match_characterization (hostname : List Char) (jar : List Cookie) :
    (∀ cookie : Cookie,
      cookieMatches hostname cookie
        = ((stripLeadingDot cookie.domain).isSuffixOf hostname
            || hostname = cookie.domain))
    ∧ cookiesForPage hostname jar = jar.filter (cookieMatches hostname)
    ∧ (cookiesForPage hostname jar).Sublist jar := by
  refine ⟨?_, rfl, List.filter_sublist jar⟩
  intro cookie
  simp only [cookieMatches, stripLeadingDot]
  by_cases h : cookie.domain.head? = some '.'
  · rw [if_pos h, if_pos h]
  · rw [if_neg h, if_neg h, List.drop_one, List.tail_cons]

/-! ## Request Recorder (network tool, `getRequestInfo.handle`, `captureRequest`)

Source:

    const captureRequest = (request) => {
      if (request.resourceType() === 'document') {
        requestInfo = { url: ..., method: ..., headers: ..., postData: request.postData() || null };
      }
    };
    page.on('request', captureRequest);

Every `document`-kind request on the stream overwrites `requestInfo`.
-/

/-- One event of the tab's outbound request stream. -/
structure ReqEvent where
  url : List Char
  method : List Char
  headers : List (List Char × List Char)
  postData : Option (List Char)
  resourceType : List Char
  deriving Repr, DecidableEq

/-- The snapshot captured from a request event (`request.postData() || null`
maps an empty string to `null`). -/
structure RequestSnapshot where
  url : List Char
  method : List Char
  headers : List (List Char × List Char)
  postData : Option (List Char)
  deriving Repr, DecidableEq

/-- Build the snapshot for one event, applying the `|| null` coercion on
`postData`. -/
def snapOf (ev : ReqEvent) : RequestSnapshot :=
  { url := ev.url
    method := ev.method
    headers := ev.headers
    postData := match ev.postData with
      | some s => if s = [] then none else some s
      | none => none }

/-- One invocation of the `captureRequest` listener: overwrite the state when
the event's resource kind is `document`, otherwise leave it alone. -/
def captureStep (st : Option RequestSnapshot) (ev : ReqEvent) : Option RequestSnapshot :=
  if ev.resourceType = "document".data then some (snapOf ev) else st

/-- The listener applied, in order, to every event observed during the reload
window. -/
def recordRequests (init : Option RequestSnapshot) (events : List ReqEvent) :
    Option RequestSnapshot :=
  events.foldl captureStep init

/-- A document-kind request event with a given url (all other fields fixed),
used by the C3 counterexample. -/
def docEvent (url : List Char) : ReqEvent :=
  { url := url, method := "GET".data, headers := [], postData := none,
    resourceType := "document".data }

/-- Claim C3, counterexample: with two document-kind requests on the stream
(urls `u1` then `u2`), the recorded snapshot is the one of the SECOND request,
not the first — later document requests DO replace the captured snapshot. -/
theorem record_first_document_cex :
    recordRequests none [docEvent "u1".data, docEvent "u2".data]
      = some (snapOf (docEvent "u2".data))
    ∧ snapOf (docEvent "u2".data) ≠ snapOf (docEvent "u1".data) := by
  decide

/-- Claim C3 (amended): the recorded snapshot is taken from the LAST request
of resource kind `document` observed on the stream during the reload (each
document-kind event overwrites the state); if no document request occurs the
initial state survives. -/
theorem record_last_document (init : Option RequestSnapshot) (events : List ReqEvent) :
    recordRequests init events
      = match (events.filter fun ev => ev.resourceType = "document".data).getLast? with
        | some ev => some (snapOf ev)
        | none => init := by
  induction events using List.reverseRecOn with
  | nil => rfl
  | append_singleton evs ev ih =>
    rw [recordRequests, List.foldl_append, List.foldl_cons, List.foldl_nil,
      List.filter_append]
    by_cases h : ev.resourceType = "document".data
    · rw [captureStep, if_pos h]
      have : List.filter (fun ev => decide (ev.resourceType = "document".data)) [ev]
          = [ev] := by
        simp [List.filter, h]
      rw [this, List.getLast?_append_cons]
      rfl
    · rw [captureStep, if_neg h]
      have : List.filter (fun ev => decide (ev.resourceType = "document".data)) [ev]
          = [] := by
        simp [List.filter, h]
      rw [this, List.append_nil]
      exact ih

/-! ## Post-data parser and Curl Synthesizer (network tool)

Source:

    function parsePostData(postData, contentType) {
      if (!contentType || contentType.includes('application/x-www-form-urlencoded')) {
        const params = new URLSearchParams(postData);
        return Array.from(params.entries()).map(([name, value]) => ({ name, value }));
      }
      return [{ name: 'raw', value: postData }];
    }

and `generateCurlCommand(info)`, which pushes `curl`, `-X <method>` (unless
GET), the quoted url, `-H` arguments for all headers except `cookie` /
`content-length` (case-insensitively), one aggregated `-H 'Cookie: ...'`
whenever `info.cookies.length > 0`, and a `-d` argument derived from
`info.postData.params` — reading `params[0].name` without an emptiness check.
-/

/-- One parsed `{name, value}` post-data field. -/
structure Param where
  name : List Char
  value : List Char
  deriving Repr, DecidableEq

/-- The `postData` record attached to the response: content type plus parsed
fields. -/
structure PostDataInfo where
  contentType : List Char
  params : List Param
  deriving Repr, DecidableEq

/-- The `RequestInfoResponse`-shaped input of `generateCurlCommand`. -/
structure CurlInfo where
  url : List Char
  method : List Char
  headers : List (List Char × List Char)
  cookies : List Cookie
  postData : Option PostDataInfo
  deriving Repr, DecidableEq

/-- `pat.isEmpty`-aware prefix test used to model JavaScript
`String.prototype.includes`. -/
def startsWithSeq : List Char → List Char → Bool
  | [], _ => true
  | _ :: _, [] => false
  | p :: ps, c :: cs => p = c && startsWithSeq ps cs

/-- JavaScript `s.includes(pat)`: some contiguous run of `s` equals `pat`. -/
def containsSeq (pat : List Char) : List Char → Bool
  | [] => startsWithSeq pat []
  | c :: cs => startsWithSeq pat (c :: cs) || containsSeq pat cs

/-- WHATWG urlencoded decoding, step 1: `+` becomes a space. -/
def plusToSpace (s : List Char) : List Char :=
  s.map fun c => if c = '+' then ' ' else c

/-- Value of one hexadecimal digit, if any (code points 48-57 are `0`-`9`,
65-70 are `A`-`F`, 97-102 are `a`-`f`). -/
def hexVal (c : Char) : Option Nat :=
  let n := c.toNat
  if 48 ≤ n ∧ n ≤ 57 then some (n - 48)
  else if 65 ≤ n ∧ n ≤ 70 then some (n - 55)
  else if 97 ≤ n ∧ n ≤ 102 then some (n - 87)
  else none

/-- WHATWG urlencoded decoding, step 2: percent-decoding.  (Decoded bytes are
kept as single code points; recombination of multi-byte UTF-8 sequences is
immaterial to the verified claims and omitted.) -/
def percentDecode : List Char → List Char
  | [] => []
  | '%' :: h1 :: h2 :: rest =>
    match hexVal h1, hexVal h2 with
    | some a, some b => Char.ofNat (16 * a + b) :: percentDecode rest
    | _, _ => '%' :: percentDecode (h1 :: h2 :: rest)
  | c :: rest => c :: percentDecode rest

/-- Full urlencoded component decoding. -/
def formDecode (s : List Char) : List Char :=
  percentDecode (plusToSpace s)

/-- `new URLSearchParams(s).entries()`: split on `&`, skip empty segments,
split each segment at its first `=` (a segment without `=` yields an empty
value), decode names and values. -/
def urlSearchParams (s : List Char) : List Param :=
  ((s.splitOn '&').filter (fun seg => ¬ seg.isEmpty)).map fun seg =>
    let p := seg.span fun c => c ≠ '='
    { name := formDecode p.1, value := formDecode (p.2.drop 1) }

/-- The branch condition `!contentType ||
contentType.includes('application/x-www-form-urlencoded')` (an absent or empty
content type is falsy). -/
def isFormContentType : Option (List Char) → Bool
  | none => true
  | some ct => ct.isEmpty || containsSeq "application/x-www-form-urlencoded".data ct

/-- `parsePostData` from the source. -/
def parsePostData (postData : List Char) (contentType : Option (List Char)) :
    List Param :=
  if isFormContentType contentType then urlSearchParams postData
  else [{ name := "raw".data, value := postData }]

/-- Single-quote an argument exactly as the source's template literals do
(no escaping of embedded quotes). -/
def quoteArg (s : List Char) : List Char :=
  '\'' :: s ++ ['\'']

/-- `key.toLowerCase()`. -/
def lowerStr (s : List Char) : List Char :=
  s.map Char.toLower

/-- The `skipHeaders` list of `generateCurlCommand`. -/
def curlSkipHeaders : List (List Char) :=
  ["cookie".data, "content-length".data]

/-- The `-H` arguments pushed by the header loop of `generateCurlCommand`:
every header except `cookie` and `content-length` (matched on the lower-cased
key), in original order. -/
def curlHeaderArgs (headers : List (List Char × List Char)) : List (List Char) :=
  headers.flatMap fun kv =>
    if curlSkipHeaders.contains (lowerStr kv.1) then []
    else ["-H".data, quoteArg (kv.1 ++ ": ".data ++ kv.2)]

/-- `cookies.map(c => `${c.name}=${c.value}`).join('; ')` — used both by the
handle's header merge and by `generateCurlCommand`. -/
def cookiePairString (cookies : List Cookie) : List Char :=
  List.intercalate "; ".data (cookies.map fun c => c.name ++ '=' :: c.value)

/-- The aggregated cookie `-H` argument, pushed whenever
`info.cookies.length > 0`. -/
def curlCookieArgs (cookies : List Cookie) : List (List Char) :=
  if cookies.length > 0 then
    ["-H".data, quoteArg ("Cookie: ".data ++ cookiePairString cookies)]
  else []

/-- The percent-encoded `name=value&...` string for the non-raw `-d` branch.
`encodeURIComponent` keeps RFC 2396 unreserved marks and percent-encodes the
UTF-8 bytes of everything else. -/
def isUnreservedURI (c : Char) : Bool :=
  ('A' ≤ c && c ≤ 'Z') || ('a' ≤ c && c ≤ 'z') || ('0' ≤ c && c ≤ '9') ||
  c = '-' || c = '_' || c = '.' || c = '!' || c = '~' || c = '*' ||
  c = '\'' || c = '(' || c = ')'

/-- Upper-case hexadecimal digit of a value below 16 (code point 48 is `0`,
65 is `A`). -/
def hexDigit (n : Nat) : Char :=
  if n < 10 then Char.ofNat (48 + n) else Char.ofNat (55 + n)

/-- `%XX` encoding of one byte. -/
def percentByte (b : Nat) : List Char :=
  ['%', hexDigit (b / 16 % 16), hexDigit (b % 16)]

/-- UTF-8 bytes of one code point. -/
def utf8Bytes (c : Char) : List Nat :=
  let n := c.toNat
  if n < 0x80 then [n]
  else if n < 0x800 then [0xC0 + n / 64, 0x80 + n % 64]
  else if n < 0x10000 then [0xE0 + n / 4096, 0x80 + n / 64 % 64, 0x80 + n % 64]
  else [0xF0 + n / 262144, 0x80 + n / 4096 % 64, 0x80 + n / 64 % 64, 0x80 + n % 64]

/-- JavaScript `encodeURIComponent`. -/
def encodeURIComponent (s : List Char) : List Char :=
  s.flatMap fun c => if isUnreservedURI c then [c] else (utf8Bytes c).flatMap percentByte

/-- The `&`-joined percent-encoded data string of the non-raw `-d` branch. -/
def encodedDataString (params : List Param) : List Char :=
  List.intercalate ['&']
    (params.map fun p => encodeURIComponent p.name ++ '=' :: encodeURIComponent p.value)

/-- The `-d` arguments of `generateCurlCommand`.  Reading
`info.postData.params[0].name` on an empty `params` throws a `TypeError`,
modelled as `none`. -/
def curlDataArgs : Option PostDataInfo → Option (List (List Char))
  | none => some []
  | some pd =>
    match pd.params with
    | [] => none
    | p0 :: _ =>
      if p0.name = "raw".data then some ["-d".data, quoteArg p0.value]
      else some ["-d".data, quoteArg (encodedDataString pd.params)]

/-- The full argument sequence built by `generateCurlCommand` (as the source's
`parts` array before the final join). -/
def curlParts (info : CurlInfo) : Option (List (List Char)) :=
  (curlDataArgs info.postData).map fun dataArgs =>
    "curl".data
      :: ((if info.method = "GET".data then [] else ["-X".data, info.method])
        ++ [quoteArg info.url]
        ++ curlHeaderArgs info.headers
        ++ curlCookieArgs info.cookies
        ++ dataArgs)

/-- `generateCurlCommand`: `parts.join(' ')`, or `none` if building the parts
threw. -/
def generateCurlCommand (info : CurlInfo) : Option (List Char) :=
  (curlParts info).map (List.intercalate [' '])

/-! ### The handle's cookie-header merge (lines 328-332) -/

/-- JavaScript property read `headers[key]` on the headers object. -/
def objGet (headers : List (List Char × List Char)) (key : List Char) :
    Option (List Char) :=
  (headers.find? fun kv => kv.1 = key).map Prod.snd

/-- Truthiness of `headers[key]` (missing and empty-string values are falsy). -/
def headerTruthy (headers : List (List Char × List Char)) (key : List Char) : Bool :=
  match objGet headers key with
  | some v => ¬ v.isEmpty
  | none => false

/-- JavaScript property write `headers[key] = v` (replaces in place, else
appends). -/
def objSet (headers : List (List Char × List Char)) (key v : List Char) :
    List (List Char × List Char) :=
  if headers.any (fun kv => kv.1 = key) then
    headers.map fun kv => if kv.1 = key then (key, v) else kv
  else headers ++ [(key, v)]

/-- `if (cookiesForCurrentPage.length > 0 && !response.headers['cookie'])
response.headers['Cookie'] = ...` -/
def mergeCookieHeader (headers : List (List Char × List Char))
    (cookies : List Cookie) : List (List Char × List Char) :=
  if cookies.length > 0 && ¬ headerTruthy headers "cookie".data then
    objSet headers "Cookie".data (cookiePairString cookies)
  else headers

/-! ### Claims C4, C5, C10 -/

/-- A string whose first character differs from the first character of `pre`
is not `pre ++ t` for any `t`. -/
theorem ne_append_of_head_ne (s pre : List Char) {c d : Char}
    (h1 : s.head? = some c) (h2 : pre.head? = some d) (hcd : c ≠ d) :
    ∀ t, s ≠ pre ++ t := by
  intro t heq
  cases pre with
  | nil => simp at h2
  | cons p ps =>
    rw [heq] at h1
    simp only [List.cons_append, List.head?_cons, Option.some.injEq] at h1 h2
    exact hcd (h1.symm.trans h2)

/-- A string not starting with a single quote is no `quoteArg`. -/
theorem ne_quoteArg_of_head_ne {s : List Char} {c : Char}
    (h1 : s.head? = some c) (hc : c ≠ '\'') :
    ∀ y, s ≠ quoteArg y := by
  intro y heq
  rw [heq] at h1
  simp only [quoteArg, List.cons_append, List.head?_cons, Option.some.injEq] at h1
  exact hc h1.symm

/-- `quoteArg` is injective. -/
theorem quoteArg_inj {a b : List Char} (h : quoteArg a = quoteArg b) : a = b := by
  simp only [quoteArg, List.cons_append, List.cons.injEq, true_and] at h
  exact List.append_cancel_right h

/-- Mapping the write of the `Cookie` key over the headers never changes the
emitted header arguments, because the loop skips the lower-cased key
`cookie`. -/
theorem curlHeaderArgs_map_cookie (headers : List (List Char × List Char))
    (v : List Char) :
    curlHeaderArgs (headers.map fun kv =>
        if kv.1 = "Cookie".data then ("Cookie".data, v) else kv)
      = curlHeaderArgs headers := by
  induction headers with
  | nil => rfl
  | cons kv t ih =>
    simp only [curlHeaderArgs, List.map_cons, List.flatMap_cons] at ih ⊢
    rw [ih]
    by_cases hk : kv.1 = "Cookie".data
    · rw [if_pos hk, hk]
      have h1 : curlSkipHeaders.contains (lowerStr "Cookie".data) = true := by decide
      simp only [h1, if_true]
    · rw [if_neg hk]

/-- Writing the `Cookie` key (in place or by appending) never changes the
emitted header arguments. -/
theorem curlHeaderArgs_objSet_cookie (headers : List (List Char × List Char))
    (v : List Char) :
    curlHeaderArgs (objSet headers "Cookie".data v) = curlHeaderArgs headers := by
  rw [objSet]
  split
  · exact curlHeaderArgs_map_cookie headers v
  · rw [curlHeaderArgs, curlHeaderArgs, List.flatMap_append]
    have h2 : ([("Cookie".data, v)].flatMap fun kv =>
        if curlSkipHeaders.contains (lowerStr kv.1) then []
        else ["-H".data, quoteArg (kv.1 ++ ": ".data ++ kv.2)]) = [] := by
      have h1 : curlSkipHeaders.contains (lowerStr "Cookie".data) = true := by decide
      simp only [List.flatMap_cons, List.flatMap_nil, h1, if_true, List.append_nil]
    rw [h2, List.append_nil]

/-- Claim C4, counterexample: with matched cookies present AND a captured
`cookie` header, the synthesized command still contains the aggregated
`-H 'Cookie: ...'` argument built from the matched cookies (the cookie block
of `generateCurlCommand` is unconditional on the headers), contradicting the
claim that no Cookie `-H` argument is emitted at all in that case. -/
theorem curl_cookie_with_captured_header_cex :
    curlParts
      { url := "u".data, method := "GET".data,
        headers := [("cookie".data, "x".data)],
        cookies := [⟨"a".data, "1".data, "e".data, "/".data, false, false⟩],
        postData := none }
      = some ["curl".data, quoteArg "u".data, "-H".data,
          quoteArg ("Cookie: ".data ++ "a=1".data)] := by
  decide

/-- Claim C4 (amended): the aggregated `-H 'Cookie: ...'` argument appears in
the synthesized command exactly when the matched cookie sequence is non-empty,
REGARDLESS of whether the captured headers contain a `cookie` header (captured
`cookie` / `content-length` headers are skipped in the header loop,
case-insensitively on the key); moreover the handle's merge of a `Cookie`
response header never changes the synthesized command.  The hypotheses rule
out header keys starting with a capital `C`, urls spelling a cookie header and
methods spelling a quoted cookie argument — all satisfied by
driver-lower-cased header names, real URLs and HTTP methods. -/
theorem curl_cookie_emission (url method : List Char)
    (headers : List (List Char × List Char)) (cookies : List Cookie)
    (hC : ∀ kv ∈ headers, kv.1.head? ≠ some 'C')
    (hu : ∀ t, url ≠ "Cookie: ".data ++ t)
    (hm : ∀ t, method ≠ quoteArg ("Cookie: ".data ++ t)) :
    generateCurlCommand
        { url := url, method := method,
          headers := mergeCookieHeader headers cookies,
          cookies := cookies, postData := none }
      = generateCurlCommand
        { url := url, method := method, headers := headers,
          cookies := cookies, postData := none }
    ∧ ∀ ps, curlParts
        { url := url, method := method, headers := headers,
          cookies := cookies, postData := none } = some ps →
        (quoteArg ("Cookie: ".data ++ cookiePairString cookies) ∈ ps ↔ cookies ≠ []) := by
  constructor
  · have hh : curlHeaderArgs (mergeCookieHeader headers cookies) = curlHeaderArgs headers := by
      rw [mergeCookieHeader]
      split
      · exact curlHeaderArgs_objSet_cookie headers _
      · rfl
    simp only [generateCurlCommand, curlParts, hh]
  · intro ps hps
    simp only [curlParts, curlDataArgs, Option.map, Option.some.injEq] at hps
    subst hps
    constructor
    · intro hmem
      intro hnil
      subst hnil
      have hcca : curlCookieArgs [] = [] := rfl
      rw [hcca] at hmem
      simp only [List.mem_cons, List.mem_append, List.append_nil,
        List.not_mem_nil, or_false] at hmem
      rcases hmem with h | (h | h) | h
      · exact ne_quoteArg_of_head_ne (s := "curl".data) rfl (by decide) _ h.symm
      · split at h
        · exact (List.not_mem_nil _) h
        · rw [List.mem_cons, List.mem_singleton] at h
          rcases h with h | h
          · exact ne_quoteArg_of_head_ne (s := "-X".data) rfl (by decide) _ h.symm
          · exact hm (cookiePairString []) h.symm
      · exact hu (cookiePairString []) (quoteArg_inj h).symm
      · rw [curlHeaderArgs, List.mem_flatMap] at h
        obtain ⟨kv, hkv, hin⟩ := h
        split at hin
        · exact (List.not_mem_nil _) hin
        · rw [List.mem_cons, List.mem_singleton] at hin
          rcases hin with h | h
          · exact ne_quoteArg_of_head_ne (s := "-H".data) rfl (by decide) _ h.symm
          · have hbody := quoteArg_inj h.symm
            cases hk1 : kv.1 with
            | nil =>
              rw [hk1] at hbody
              simp only [List.nil_append] at hbody
              exact ne_append_of_head_ne (": ".data ++ kv.2)
                "Cookie: ".data rfl rfl (by decide)
                (cookiePairString []) hbody
            | cons k0 ks =>
              have hCk := hC kv hkv
              rw [hk1] at hCk hbody
              simp only [List.head?_cons, ne_eq, Option.some.injEq] at hCk
              simp only [List.cons_append, List.append_assoc, List.cons.injEq] at hbody
              exact hCk hbody.1
    · intro hne
      have hlen : cookies.length > 0 := by
        cases cookies with
        | nil => exact absurd rfl hne
        | cons a t => simp
      simp [curlCookieArgs, hlen]

/-- Witness for `curl_cookie_emission` at a concrete request: lower-case
header `accept`, one matched cookie `a=1`. -/
theorem curl_cookie_emission_witness :
    generateCurlCommand
        { url := "u".data, method := "GET".data,
          headers := mergeCookieHeader [("accept".data, "x".data)]
            [⟨"a".data, "1".data, "e".data, "/".data, false, false⟩],
          cookies := [⟨"a".data, "1".data, "e".data, "/".data, false, false⟩],
          postData := none }
      = generateCurlCommand
        { url := "u".data, method := "GET".data,
          headers := [("accept".data, "x".data)],
          cookies := [⟨"a".data, "1".data, "e".data, "/".data, false, false⟩],
          postData := none }
    ∧ ∀ ps, curlParts
        { url := "u".data, method := "GET".data,
          headers := [("accept".data, "x".data)],
          cookies := [⟨"a".data, "1".data, "e".data, "/".data, false, false⟩],
          postData := none } = some ps →
        (quoteArg ("Cookie: ".data
            ++ cookiePairString [⟨"a".data, "1".data, "e".data, "/".data, false, false⟩]) ∈ ps
          ↔ [⟨"a".data, "1".data, "e".data, "/".data, false, false⟩] ≠ ([] : List Cookie)) :=
  curl_cookie_emission "u".data "GET".data [("accept".data, "x".data)]
    [⟨"a".data, "1".data, "e".data, "/".data, false, false⟩]
    (by intro kv hkv; rw [List.mem_singleton] at hkv; rw [hkv]; decide)
    (ne_append_of_head_ne "u".data "Cookie: ".data rfl rfl (by decide))
    (fun t => ne_quoteArg_of_head_ne (s := "GET".data) (c := 'G') rfl (by decide)
      ("Cookie: ".data ++ t))

/-- Claim C5, counterexample: a form-encoded body `raw=a&x=b` parses into TWO
fields whose FIRST happens to be named `raw`; the `-d` branch then emits the
verbatim form `-d 'a'` (just the first field's value), not the percent-encoded
`name=value&...` join of all parsed fields that the claim requires for every
multi-field body. -/
theorem curl_post_raw_first_field_cex :
    parsePostData "raw=a&x=b".data none
      = [⟨"raw".data, "a".data⟩, ⟨"x".data, "b".data⟩]
    ∧ curlDataArgs (some ⟨"application/x-www-form-urlencoded".data,
        parsePostData "raw=a&x=b".data none⟩)
      = some ["-d".data, quoteArg "a".data]
    ∧ quoteArg "a".data
      ≠ quoteArg (encodedDataString (parsePostData "raw=a&x=b".data none)) := by
  decide

/-- Claim C5 (amended): the verbatim `-d '<value>'` form is emitted exactly
when the FIRST parsed field is named `raw` (regardless of how many fields
follow), and then it carries only that first field's value; otherwise the
emitted `-d` argument is the percent-encoded `name=value` join of all parsed
fields.  For a present body with a non-form content type, the parse is the
single synthetic `raw` field and the command carries the body verbatim. -/
theorem curl_post_data_branch (pd : PostDataInfo) (p0 : Param) (rest : List Param)
    (hp : pd.params = p0 :: rest) :
    (p0.name = "raw".data →
        curlDataArgs (some pd) = some ["-d".data, quoteArg p0.value])
    ∧ (p0.name ≠ "raw".data →
        curlDataArgs (some pd) = some ["-d".data, quoteArg (encodedDataString pd.params)])
    ∧ (∀ body ct, isFormContentType (some ct) = false →
        parsePostData body (some ct) = [⟨"raw".data, body⟩]
        ∧ curlDataArgs (some ⟨ct, parsePostData body (some ct)⟩)
            = some ["-d".data, quoteArg body]) := by
  refine ⟨?_, ?_, ?_⟩
  · intro hraw
    rw [curlDataArgs, hp]
    simp only [hraw, if_true]
  · intro hraw
    rw [curlDataArgs, hp]
    simp only [hraw, if_false, ite_false]
  · intro body ct hct
    have hparse : parsePostData body (some ct) = [⟨"raw".data, body⟩] := by
      rw [parsePostData, hct]
      simp
    refine ⟨hparse, ?_⟩
    rw [hparse, curlDataArgs]
    simp

/-- Witness for `curl_post_data_branch` on the body `raw=a&x=b` (form
content type) and on a plain-text body. -/
theorem curl_post_data_branch_witness :
    curlDataArgs (some ⟨"application/x-www-form-urlencoded".data,
        parsePostData "raw=a&x=b".data none⟩)
      = some ["-d".data, quoteArg "a".data]
    ∧ parsePostData "hello".data (some "text/plain".data)
        = [⟨"raw".data, "hello".data⟩] :=
  ⟨(curl_post_data_branch ⟨"application/x-www-form-urlencoded".data,
      parsePostData "raw=a&x=b".data none⟩ ⟨"raw".data, "a".data⟩
      [⟨"x".data, "b".data⟩] (by decide)).1 (by decide),
   ((curl_post_data_branch ⟨"text/plain".data, [⟨"raw".data, "hello".data⟩]⟩
      ⟨"raw".data, "hello".data⟩ [] rfl).2.2 "hello".data "text/plain".data
      (by decide)).1⟩

/-- Claim C10, counterexample: for the present (non-empty) body `"&"` with a
form content type, the urlencoded parse yields an empty field sequence and
`generateCurlCommand` reads `params[0].name` of the empty list — a thrown
`TypeError`, modelled as `none`.  Curl synthesis is NOT total. -/
theorem curl_empty_params_cex :
    parsePostData ['&'] none = []
    ∧ generateCurlCommand
        { url := "u".data, method := "POST".data, headers := [], cookies := [],
          postData := some ⟨[], parsePostData ['&'] none⟩ }
      = none := by
  decide

/-- Claim C10 (amended): curl synthesis succeeds and emits exactly one `-d`
argument whenever the parsed field sequence of a present body is non-empty;
when the form-urlencoded parse yields an empty field sequence (e.g. body
`"&"`), reading the first element of the empty params list throws and no
command is produced. -/
theorem curl_data_totality (info : CurlInfo) (pd : PostDataInfo)
    (h : info.postData = some pd) :
    (pd.params ≠ [] →
        (∃ s, curlDataArgs (some pd) = some ["-d".data, s])
        ∧ ∃ cmd, generateCurlCommand info = some cmd)
    ∧ (pd.params = [] → generateCurlCommand info = none) := by
  constructor
  · intro hne
    have hd : ∃ s, curlDataArgs (some pd) = some ["-d".data, s] := by
      rw [curlDataArgs]
      cases hp : pd.params with
      | nil => exact absurd hp hne
      | cons p0 rest =>
        by_cases hraw : p0.name = "raw".data
        · exact ⟨quoteArg p0.value, by simp [hraw]⟩
        · exact ⟨quoteArg (encodedDataString pd.params), by simp [hraw, hp]⟩
    refine ⟨hd, ?_⟩
    obtain ⟨s, hs⟩ := hd
    rw [generateCurlCommand, curlParts, h, hs]
    exact ⟨_, rfl⟩
  · intro hnil
    rw [generateCurlCommand, curlParts, h, curlDataArgs, hnil]
    rfl

/-- Witness for `curl_data_totality`: a one-field body succeeds, the body
`"&"` fails. -/
theorem curl_data_totality_witness :
    ((∃ s, curlDataArgs (some ⟨[], [⟨"a".data, "b".data⟩]⟩)
        = some ["-d".data, s])
      ∧ ∃ cmd, generateCurlCommand
          { url := "u".data, method := "POST".data, headers := [], cookies := [],
            postData := some ⟨[], [⟨"a".data, "b".data⟩]⟩ } = some cmd)
    ∧ generateCurlCommand
        { url := "u".data, method := "POST".data, headers := [], cookies := [],
          postData := some ⟨[], ([] : List Param)⟩ } = none :=
  ⟨(curl_data_totality
      { url := "u".data, method := "POST".data, headers := [], cookies := [],
        postData := some ⟨[], [⟨"a".data, "b".data⟩]⟩ }
      ⟨[], [⟨"a".data, "b".data⟩]⟩ rfl).1 (by decide),
   (curl_data_totality
      { url := "u".data, method := "POST".data, headers := [], cookies := [],
        postData := some ⟨[], ([] : List Param)⟩ }
      ⟨[], ([] : List Param)⟩ rfl).2 rfl⟩

/-! ## Preset Resolver (src/tools/htmlsource.ts, input schema and preset switch)

Source: the input schema declares
`preset: z.enum(['full', 'minimal', 'structure', 'content']).optional()`,
and the handle applies

    let finalParams = { ...params };
    if (params.preset) {
      switch (params.preset) {
        case 'minimal':   finalParams = { ...params, excludeTags: ['script','style','noscript'], compress: true, includeComments: false }; break;
        case 'structure': finalParams = { ...params, excludeTags: ['script','style'], compress: true }; break;
        case 'content':   finalParams = { ...params, excludeTags: ['script','style','meta','link'], compress: true }; break;
        case 'full':      finalParams = { ...params }; break;
        default: break;
      }
    }
-/

/-- The caller-supplied options of `browser_get_html_source`. -/
structure HtmlParams where
  compress : Option Bool
  excludeTags : Option (List (List Char))
  includeComments : Option Bool
  prettyPrint : Option Bool
  selector : Option (List Char)
  maxLength : Option Int
  offset : Option Int
  headOnly : Option Bool
  bodyOnly : Option Bool
  preset : Option (List Char)
  deriving Repr, DecidableEq

/-- The four preset names admitted by the `z.enum` input schema. -/
def presetNames : List (List Char) :=
  ["full".data, "minimal".data, "structure".data, "content".data]

/-- The zod validation of the optional `preset` field:
`z.enum(['full', 'minimal', 'structure', 'content']).optional()` accepts an
absent field or one of the four names and rejects every other string. -/
def validatePresetField : Option (List Char) → Bool
  | none => true
  | some p => presetNames.contains p

/-- The preset switch of the handle (the `full` case and the `default` case
both keep the original parameters). -/
def applyPreset (params : HtmlParams) : HtmlParams :=
  match params.preset with
  | none => params
  | some p =>
    if p = "minimal".data then
      { params with
        excludeTags := some ["script".data, "style".data, "noscript".data],
        compress := some true, includeComments := some false }
    else if p = "structure".data then
      { params with
        excludeTags := some ["script".data, "style".data], compress := some true }
    else if p = "content".data then
      { params with
        excludeTags := some ["script".data, "style".data, "meta".data, "link".data],
        compress := some true }
    else params

/-- Claim C9, counterexample: the unknown preset name `banana` is rejected by
the input schema (`z.enum` admits only the four known names), so a call
supplying it is NOT treated as preset `full` — it never reaches the handler. -/
theorem preset_unknown_cex :
    validatePresetField (some "banana".data) = false := by
  decide

/-- Claim C9 (amended): an unknown preset name is rejected by the `z.enum`
input schema rather than accepted; only the four known names pass validation.
For a call that reaches the handler, any preset other than
`minimal`/`structure`/`content` — i.e. `full`, an absent preset, or a
hypothetical unknown string — leaves the caller's options unchanged. -/
theorem preset_unknown_handling (p : List Char) (params : HtmlParams) :
    (p ∉ presetNames → validatePresetField (some p) = false)
    ∧ (params.preset = none → applyPreset params = params)
    ∧ (params.preset = some "full".data → applyPreset params = params)
    ∧ (params.preset = some p → p ≠ "minimal".data → p ≠ "structure".data →
        p ≠ "content".data → applyPreset params = params) := by
  refine ⟨?_, ?_, ?_, ?_⟩
  · intro hmem
    rw [validatePresetField]
    have hnc : ¬ presetNames.contains p = true := by
      intro hc
      exact hmem (by simpa using hc)
    exact Bool.eq_false_iff.mpr hnc
  · intro h
    simp only [applyPreset, h]
  · intro h
    simp only [applyPreset, h]
    rw [if_neg (by decide), if_neg (by decide), if_neg (by decide)]
  · intro h h1 h2 h3
    simp only [applyPreset, h]
    rw [if_neg h1, if_neg h2, if_neg h3]

/-- Witness for `preset_unknown_handling` at the unknown name `banana`. -/
theorem preset_unknown_handling_witness :
    validatePresetField (some "banana".data) = false
    ∧ applyPreset
        ⟨none, none, none, none, none, none, none, none, none, some "banana".data⟩
      = ⟨none, none, none, none, none, none, none, none, none, some "banana".data⟩ :=
  ⟨(preset_unknown_handling "banana".data
      ⟨none, none, none, none, none, none, none, none, none, some "banana".data⟩).1
      (by decide),
   (preset_unknown_handling "banana".data
      ⟨none, none, none, none, none, none, none, none, none, some "banana".data⟩).2.2.2
      rfl (by decide) (by decide) (by decide)⟩

/-! ## Compression stage (src/tools/htmlsource.ts, handle, compress block)

Source:

    htmlSource = htmlSource
      .replace(/>\s+</g, '><')  // Remove whitespace between tags
      .replace(/\s+/g, ' ')     // Collapse multiple whitespace to single space
      .trim();

The two global regex replacements are modelled as single left-to-right scans,
which is exactly what a global regex replacement performs: matches are found
leftmost-first without overlap, and scanning resumes after each replacement.
-/

/-- The JavaScript `\s` class (whitespace as used by `/\s+/` and by
`String.prototype.trim`). -/
def isJsWs (c : Char) : Bool :=
  c = ' ' || c = '\t' || c = '\n' || c = '\r' ||
  c = '\x0b' || c = '\x0c' ||
  c = '\u00A0' || c = '\u1680' ||
  ('\u2000' ≤ c && c ≤ '\u200A') ||
  c = '\u2028' || c = '\u2029' || c = '\u202F' || c = '\u205F' ||
  c = '\u3000' || c = '\uFEFF'

/-- `.replace(/>\s+</g, '><')` as a scan.  The state `some buf` means a `>`
has just been emitted and `buf` is the run of whitespace read since; when the
next non-whitespace character is `<` the buffered run is dropped (the match
`>\s+<` was replaced by `><`), otherwise the buffer is flushed unchanged.
Matches of the regex begin at `>`, contain no internal `>` or `<`, and cannot
overlap, so this scan computes exactly the global replacement. -/
def removeTagGapsGo : Option (List Char) → List Char → List Char
  | none, [] => []
  | some buf, [] => buf
  | none, c :: rest => c :: removeTagGapsGo (if c = '>' then some [] else none) rest
  | some buf, c :: rest =>
    if isJsWs c then removeTagGapsGo (some (buf ++ [c])) rest
    else if c = '<' then '<' :: removeTagGapsGo none rest
    else if c = '>' then buf ++ '>' :: removeTagGapsGo (some []) rest
    else buf ++ c :: removeTagGapsGo none rest

/-- First compression step: remove whitespace between adjacent tags. -/
def removeTagGaps (s : List Char) : List Char :=
  removeTagGapsGo none s

/-- `.replace(/\s+/g, ' ')` as a scan; the Boolean state records whether the
previous character was whitespace (i.e. we are inside a run that has already
emitted its single space). -/
def collapseWsGo : Bool → List Char → List Char
  | _, [] => []
  | prevWs, c :: rest =>
    if isJsWs c then (if prevWs then [] else [' ']) ++ collapseWsGo true rest
    else c :: collapseWsGo false rest

/-- Second compression step: collapse every whitespace run to a single
space. -/
def collapseWs (s : List Char) : List Char :=
  collapseWsGo false s

/-- `String.prototype.trim`. -/
def trimWs (s : List Char) : List Char :=
  ((s.dropWhile isJsWs).reverse.dropWhile isJsWs).reverse

/-- The complete compression stage. -/
def compressHtml (s : List Char) : List Char :=
  trimWs (collapseWs (removeTagGaps s))

/-! ### No-newline part of claim C8 -/

/-- Every character emitted by the collapse scan is either a single space or
non-whitespace. -/
theorem mem_collapseWsGo {c : Char} :
    ∀ (l : List Char) (b : Bool), c ∈ collapseWsGo b l → c = ' ' ∨ isJsWs c = false := by
  intro l
  induction l with
  | nil => intro b h; simp [collapseWsGo] at h
  | cons a t ih =>
    intro b h
    rw [collapseWsGo] at h
    by_cases hws : isJsWs a
    · rw [if_pos hws, List.mem_append] at h
      rcases h with h | h
      · cases b with
        | true => simp at h
        | false =>
          simp only [if_neg (by decide : ¬ (false = true)), List.mem_singleton] at h
          exact Or.inl h
      · exact ih true h
    · rw [if_neg hws, List.mem_cons] at h
      rcases h with h | h
      · subst h
        exact Or.inr (by simpa using hws)
      · exact ih false h

/-- Membership survives `dropWhile`. -/
theorem mem_of_mem_dropWhile {c : Char} {p : Char → Bool} {l : List Char}
    (h : c ∈ l.dropWhile p) : c ∈ l := by
  have hd := List.takeWhile_append_dropWhile p l
  rw [← hd]
  exact List.mem_append_right _ h

/-- Membership survives `trimWs`. -/
theorem mem_trimWs {c : Char} {l : List Char} (h : c ∈ trimWs l) : c ∈ l := by
  rw [trimWs, List.mem_reverse] at h
  have h2 := mem_of_mem_dropWhile h
  rw [List.mem_reverse] at h2
  exact mem_of_mem_dropWhile h2

/-! ### Normal-form predicates for the idempotence part of claim C8 -/

/-- All whitespace in `m` is the single space character. -/
def wsOnlySpace (m : List Char) : Prop :=
  ∀ c ∈ m, isJsWs c = true → c = ' '

/-- No two adjacent whitespace characters. -/
def noAdjWs : List Char → Bool
  | a :: b :: rest => (!(isJsWs a && isJsWs b)) && noAdjWs (b :: rest)
  | _ => true

/-- No occurrence of `>`, one whitespace character, `<` in a row (with
`wsOnlySpace` and `noAdjWs`, the only way `m` can still match `>\s+<`). -/
def noWsGapTriple : List Char → Bool
  | a :: b :: c :: rest => (!(a == '>' && isJsWs b && c == '<')) && noWsGapTriple (b :: c :: rest)
  | _ => true

/-- `m` does not begin with a nonempty whitespace run followed by `<`. -/
def headGapFree (m : List Char) : Bool :=
  (m.takeWhile isJsWs).isEmpty || decide ((m.dropWhile isJsWs).head? ≠ some '<')

/-- No position of `m` matches the regex `>\s+<`: wherever a `>` occurs, what
follows is head-gap-free. -/
def noGap : List Char → Bool
  | [] => true
  | c :: rest => (if c = '>' then headGapFree rest else true) && noGap rest

/-! ### Structural lemmas for the normal-form predicates -/

/-- Unfolding `noAdjWs` at two cons cells. -/
theorem noAdjWs_cons₂ (a b : Char) (r : List Char) :
    noAdjWs (a :: b :: r) = ((!(isJsWs a && isJsWs b)) && noAdjWs (b :: r)) := rfl

/-- `noAdjWs` restricts to the tail. -/
theorem noAdjWs_tail {x : Char} {m : List Char} (h : noAdjWs (x :: m) = true) :
    noAdjWs m = true := by
  cases m with
  | nil => rfl
  | cons b r =>
    rw [noAdjWs_cons₂, Bool.and_eq_true] at h
    exact h.2

/-- `noAdjWs` survives `dropWhile`. -/
theorem noAdjWs_dropWhile (p : Char → Bool) :
    ∀ m : List Char, noAdjWs m = true → noAdjWs (m.dropWhile p) = true := by
  intro m
  induction m with
  | nil => intro h; exact h
  | cons a t ih =>
    intro h
    rw [List.dropWhile_cons]
    split
    · exact ih (noAdjWs_tail h)
    · exact h

/-- `noAdjWs` restricts to an initial segment. -/
theorem noAdjWs_append_left :
    ∀ {m s : List Char}, noAdjWs (m ++ s) = true → noAdjWs m = true := by
  intro m
  induction m with
  | nil => intro s _; rfl
  | cons a t ih =>
    intro s h
    cases t with
    | nil => rfl
    | cons b t2 =>
      rw [List.cons_append, List.cons_append] at h
      rw [noAdjWs_cons₂, Bool.and_eq_true] at h ⊢
      exact ⟨h.1, ih h.2⟩

/-- Unfolding `noWsGapTriple` at three cons cells. -/
theorem noWsGapTriple_cons₃ (a b c : Char) (r : List Char) :
    noWsGapTriple (a :: b :: c :: r)
      = ((!(a == '>' && isJsWs b && c == '<')) && noWsGapTriple (b :: c :: r)) := rfl

/-- A head that is not `>` never starts a gap triple. -/
theorem noWsGapTriple_cons_ne_gt {x : Char} (hx : x ≠ '>') (m : List Char) :
    noWsGapTriple (x :: m) = noWsGapTriple m := by
  cases m with
  | nil => rfl
  | cons b r =>
    cases r with
    | nil => rfl
    | cons c r2 =>
      rw [noWsGapTriple_cons₃]
      have hb : (x == '>') = false := by simpa using hx
      simp [hb]

/-- A non-whitespace second character never completes a gap triple. -/
theorem noWsGapTriple_cons_not_ws {x y : Char} (hy : isJsWs y = false) (m : List Char) :
    noWsGapTriple (x :: y :: m) = noWsGapTriple (y :: m) := by
  cases m with
  | nil => rfl
  | cons c r =>
    rw [noWsGapTriple_cons₃]
    simp [hy]

/-- `noWsGapTriple` restricts to the tail. -/
theorem noWsGapTriple_tail {x : Char} {m : List Char}
    (h : noWsGapTriple (x :: m) = true) : noWsGapTriple m = true := by
  cases m with
  | nil => rfl
  | cons b r =>
    cases r with
    | nil => rfl
    | cons c r2 =>
      rw [noWsGapTriple_cons₃, Bool.and_eq_true] at h
      exact h.2

/-- `noWsGapTriple` survives `dropWhile`. -/
theorem noWsGapTriple_dropWhile (p : Char → Bool) :
    ∀ m : List Char, noWsGapTriple m = true → noWsGapTriple (m.dropWhile p) = true := by
  intro m
  induction m with
  | nil => intro h; exact h
  | cons a t ih =>
    intro h
    rw [List.dropWhile_cons]
    split
    · exact ih (noWsGapTriple_tail h)
    · exact h

/-- `noWsGapTriple` restricts to an initial segment. -/
theorem noWsGapTriple_append_left :
    ∀ {m s : List Char}, noWsGapTriple (m ++ s) = true → noWsGapTriple m = true := by
  intro m
  induction m with
  | nil => intro s _; rfl
  | cons a t ih =>
    intro s h
    cases t with
    | nil => rfl
    | cons b t2 =>
      cases t2 with
      | nil => rfl
      | cons c t3 =>
        rw [List.cons_append, List.cons_append, List.cons_append] at h
        rw [noWsGapTriple_cons₃, Bool.and_eq_true] at h ⊢
        exact ⟨h.1, ih h.2⟩

/-- Decomposition: a list is its `takeWhile` prefix followed by its
`dropWhile` suffix. -/
theorem dropWhile_decomp (p : Char → Bool) (l : List Char) :
    ∃ pre, l = pre ++ l.dropWhile p :=
  ⟨l.takeWhile p, (List.takeWhile_append_dropWhile p l).symm⟩

/-- `trimWs l` is an initial segment of `l.dropWhile isJsWs`. -/
theorem trimWs_decomp (l : List Char) :
    ∃ t, l.dropWhile isJsWs = trimWs l ++ t := by
  obtain ⟨pre, hpre⟩ := dropWhile_decomp isJsWs (l.dropWhile isJsWs).reverse
  refine ⟨pre.reverse, ?_⟩
  rw [trimWs]
  calc l.dropWhile isJsWs
      = (l.dropWhile isJsWs).reverse.reverse := (List.reverse_reverse _).symm
    _ = (pre ++ ((l.dropWhile isJsWs).reverse.dropWhile isJsWs)).reverse := by rw [← hpre]
    _ = ((l.dropWhile isJsWs).reverse.dropWhile isJsWs).reverse ++ pre.reverse :=
        List.reverse_append _ _

/-! ### Facts about the collapse scan -/

/-- The head emitted by the collapse scan in run state is the first
non-whitespace character of the input. -/
theorem collapseWsGo_true_head? :
    ∀ r : List Char, (collapseWsGo true r).head? = (r.dropWhile isJsWs).head? := by
  intro r
  induction r with
  | nil => rfl
  | cons a t ih =>
    rw [collapseWsGo, List.dropWhile_cons]
    by_cases hws : isJsWs a
    · rw [if_pos hws, if_pos hws]
      simpa using ih
    · rw [if_neg hws, if_neg hws]
      rfl

/-- A character at the head of a `dropWhile` result fails the predicate. -/
theorem head?_dropWhile_false {p : Char → Bool} {l : List Char} {c : Char}
    (h : (l.dropWhile p).head? = some c) : p c = false := by
  have hd := List.head?_dropWhile_not p l
  rw [h] at hd
  simpa using hd

/-- The collapse scan never emits two adjacent whitespace characters. -/
theorem noAdjWs_collapseWsGo :
    ∀ (l : List Char) (b : Bool), noAdjWs (collapseWsGo b l) = true := by
  intro l
  induction l with
  | nil => intro b; rfl
  | cons a t ih =>
    intro b
    rw [collapseWsGo]
    by_cases hws : isJsWs a
    · rw [if_pos hws]
      cases b with
      | true =>
        rw [if_pos rfl, List.nil_append]
        exact ih true
      | false =>
        rw [if_neg (by decide : ¬ (false = true)), List.singleton_append]
        cases hout : collapseWsGo true t with
        | nil => rfl
        | cons y r =>
          rw [noAdjWs_cons₂, Bool.and_eq_true]
          constructor
          · have hy : isJsWs y = false := by
              apply head?_dropWhile_false (p := isJsWs) (l := t)
              rw [← collapseWsGo_true_head?, hout]
              rfl
            simp [hy]
          · rw [← hout]
            exact ih true
    · rw [if_neg hws]
      cases hout : collapseWsGo false t with
      | nil => rfl
      | cons y r =>
        rw [noAdjWs_cons₂, Bool.and_eq_true]
        constructor
        · simp [(by simpa using hws : isJsWs a = false)]
        · rw [← hout]
          exact ih false

/-- All whitespace emitted by the collapse scan is the single space. -/
theorem wsOnlySpace_collapseWsGo (l : List Char) (b : Bool) :
    wsOnlySpace (collapseWsGo b l) := by
  intro c hc hws
  rcases mem_collapseWsGo l b hc with h | h
  · exact h
  · rw [hws] at h
    exact absurd h (by decide)

/-! ### Facts about `noGap` and the tag-gap scan -/

/-- Whitespace characters are never `>`. -/
theorem ws_ne_gt {c : Char} (h : isJsWs c = true) : c ≠ '>' := by
  intro he
  rw [he] at h
  exact absurd h (by decide)

/-- Whitespace characters are never `<`. -/
theorem ws_ne_lt {c : Char} (h : isJsWs c = true) : c ≠ '<' := by
  intro he
  rw [he] at h
  exact absurd h (by decide)

/-- An all-whitespace prefix does not affect `noGap`. -/
theorem noGap_append_ws :
    ∀ (p m : List Char), (∀ c ∈ p, isJsWs c = true) → noGap (p ++ m) = noGap m := by
  intro p
  induction p with
  | nil => intro m _; rfl
  | cons a p2 ih =>
    intro m hall
    rw [List.cons_append, noGap]
    rw [if_neg (ws_ne_gt (hall a (List.mem_cons_self a p2)))]
    rw [Bool.true_and]
    exact ih m fun c hc => hall c (List.mem_cons_of_mem a hc)

/-- An all-whitespace list has no gap. -/
theorem noGap_of_all_ws (p : List Char) (h : ∀ c ∈ p, isJsWs c = true) :
    noGap p = true := by
  have := noGap_append_ws p [] h
  rwa [List.append_nil] at this

/-- An all-whitespace prefix does not affect `dropWhile isJsWs`. -/
theorem dropWhile_ws_append :
    ∀ (p m : List Char), (∀ c ∈ p, isJsWs c = true) →
      (p ++ m).dropWhile isJsWs = m.dropWhile isJsWs := by
  intro p
  induction p with
  | nil => intro m _; rfl
  | cons a p2 ih =>
    intro m hall
    rw [List.cons_append, List.dropWhile_cons,
      if_pos (hall a (List.mem_cons_self a p2))]
    exact ih m fun c hc => hall c (List.mem_cons_of_mem a hc)

/-- An all-whitespace list is head-gap-free. -/
theorem headGapFree_of_all_ws (p : List Char) (h : ∀ c ∈ p, isJsWs c = true) :
    headGapFree p = true := by
  have hd : p.dropWhile isJsWs = [] := List.dropWhile_eq_nil_iff.mpr h
  simp [headGapFree, hd]

/-- The tag-gap scan's output never matches `>\s+<` again, and in the
buffered state it is additionally head-gap-free. -/
theorem removeTagGapsGo_invariant :
    ∀ l : List Char,
      (∀ buf, (∀ c ∈ buf, isJsWs c = true) →
        noGap (removeTagGapsGo (some buf) l) = true
        ∧ headGapFree (removeTagGapsGo (some buf) l) = true)
      ∧ noGap (removeTagGapsGo none l) = true := by
  intro l
  induction l with
  | nil =>
    refine ⟨?_, rfl⟩
    intro buf hbuf
    rw [removeTagGapsGo]
    exact ⟨noGap_of_all_ws buf hbuf, headGapFree_of_all_ws buf hbuf⟩
  | cons c t ih =>
    obtain ⟨ihS, ihN⟩ := ih
    constructor
    · intro buf hbuf
      rw [removeTagGapsGo]
      by_cases hws : isJsWs c = true
      · rw [if_pos hws]
        have h2 : ∀ x ∈ buf ++ [c], isJsWs x = true := by
          intro x hx
          rw [List.mem_append, List.mem_singleton] at hx
          rcases hx with hx | hx
          · exact hbuf x hx
          · rw [hx]; exact hws
        exact ihS (buf ++ [c]) h2
      · rw [if_neg hws]
        by_cases hlt : c = '<'
        · rw [if_pos hlt]
          constructor
          · rw [noGap, if_neg (by decide : ¬ (('<' : Char) = '>')), Bool.true_and]
            exact ihN
          · rw [headGapFree, Bool.or_eq_true]
            left
            rw [List.takeWhile_cons, if_neg (by decide : ¬ (isJsWs '<' = true))]
            rfl
        · rw [if_neg hlt]
          by_cases hgt : c = '>'
          · rw [if_pos hgt]
            have hS := ihS [] (by intro x hx; simp at hx)
            constructor
            · rw [noGap_append_ws buf _ hbuf, noGap, if_pos rfl, Bool.and_eq_true]
              exact ⟨hS.2, hS.1⟩
            · rw [headGapFree]
              have hd : ((buf ++ '>' :: removeTagGapsGo (some []) t).dropWhile isJsWs)
                  = '>' :: removeTagGapsGo (some []) t := by
                rw [dropWhile_ws_append buf _ hbuf, List.dropWhile_cons,
                  if_neg (by decide : ¬ (isJsWs '>' = true))]
              rw [Bool.or_eq_true]
              right
              rw [hd]
              apply decide_eq_true
              rw [List.head?_cons]
              intro he
              exact absurd (Option.some.inj he) (by decide)
          · rw [if_neg hgt]
            constructor
            · rw [noGap_append_ws buf _ hbuf, noGap, if_neg hgt, Bool.true_and]
              exact ihN
            · rw [headGapFree, Bool.or_eq_true]
              right
              have hd : ((buf ++ c :: removeTagGapsGo none t).dropWhile isJsWs)
                  = c :: removeTagGapsGo none t := by
                rw [dropWhile_ws_append buf _ hbuf, List.dropWhile_cons, if_neg hws]
              rw [hd]
              apply decide_eq_true
              rw [List.head?_cons]
              intro he
              exact hlt (Option.some.inj he)
    · rw [removeTagGapsGo]
      by_cases hgt : c = '>'
      · rw [if_pos hgt]
        have hS := ihS [] (by intro x hx; simp at hx)
        rw [noGap, if_pos hgt, Bool.and_eq_true]
        exact ⟨hS.2, hS.1⟩
      · rw [if_neg hgt]
        rw [noGap, if_neg hgt, Bool.true_and]
        exact ihN

/-- Prepending `>` to the collapse of a head-gap-free input cannot create a
gap triple. -/
theorem noWsGapTriple_gt_cons {t : List Char}
    (hT : noWsGapTriple (collapseWsGo false t) = true)
    (hg : headGapFree t = true) :
    noWsGapTriple ('>' :: collapseWsGo false t) = true := by
  cases t with
  | nil => rfl
  | cons d t2 =>
    by_cases hwsd : isJsWs d = true
    · rw [collapseWsGo, if_pos hwsd, if_neg (by decide : ¬ (false = true)),
        List.singleton_append] at hT ⊢
      cases hout : collapseWsGo true t2 with
      | nil => rfl
      | cons e r =>
        rw [noWsGapTriple_cons₃, Bool.and_eq_true]
        constructor
        · have he : e ≠ '<' := by
            rw [headGapFree, Bool.or_eq_true] at hg
            rcases hg with hg | hg
            · rw [List.takeWhile_cons, if_pos hwsd] at hg
              simp at hg
            · have h2 := of_decide_eq_true hg
              rw [List.dropWhile_cons, if_pos hwsd] at h2
              have h3 := collapseWsGo_true_head? t2
              rw [hout, List.head?_cons] at h3
              intro he2
              exact h2 (by rw [← h3, he2])
          simp [he]
        · rw [hout] at hT
          exact hT
    · rw [collapseWsGo, if_neg hwsd] at hT ⊢
      rw [noWsGapTriple_cons_not_ws (by simpa using hwsd)]
      exact hT

/-- The collapse of a gap-free input has no gap triple. -/
theorem noWsGapTriple_collapseWsGo :
    ∀ (u : List Char) (b : Bool), noGap u = true →
      noWsGapTriple (collapseWsGo b u) = true := by
  intro u
  induction u with
  | nil => intro b _; rfl
  | cons c t ih =>
    intro b hng
    rw [noGap, Bool.and_eq_true] at hng
    obtain ⟨hg, hng⟩ := hng
    rw [collapseWsGo]
    by_cases hws : isJsWs c = true
    · rw [if_pos hws]
      cases b with
      | true =>
        rw [if_pos rfl, List.nil_append]
        exact ih true hng
      | false =>
        rw [if_neg (by decide : ¬ (false = true)), List.singleton_append]
        rw [noWsGapTriple_cons_ne_gt (by decide : (' ' : Char) ≠ '>')]
        exact ih true hng
    · rw [if_neg hws]
      by_cases hgt : c = '>'
      · subst hgt
        rw [if_pos rfl] at hg
        exact noWsGapTriple_gt_cons (ih false hng) hg
      · rw [noWsGapTriple_cons_ne_gt hgt]
        exact ih false hng

/-! ### Identity of each compression step on normalized input -/

/-- The collapse scan is the identity on strings whose whitespace is single
non-adjacent spaces. -/
theorem collapseWsGo_id :
    ∀ m : List Char, wsOnlySpace m → noAdjWs m = true → collapseWsGo false m = m := by
  intro m
  induction m with
  | nil => intro _ _; rfl
  | cons a t ih =>
    intro hws hadj
    have iht := ih (fun c hc hw => hws c (List.mem_cons_of_mem a hc) hw) (noAdjWs_tail hadj)
    rw [collapseWsGo]
    by_cases hwsa : isJsWs a = true
    · have ha : a = ' ' := hws a (List.mem_cons_self a t) hwsa
      rw [if_pos hwsa, if_neg (by decide : ¬ (false = true)), List.singleton_append, ha]
      congr 1
      cases t with
      | nil => rfl
      | cons d t2 =>
        have hd : isJsWs d = false := by
          rw [ha, noAdjWs_cons₂, Bool.and_eq_true] at hadj
          have h1 := hadj.1
          rw [(by decide : isJsWs ' ' = true), Bool.true_and, Bool.not_eq_true'] at h1
          exact h1
        rw [collapseWsGo, if_neg (by rw [hd]; decide)]
        rw [collapseWsGo, if_neg (by rw [hd]; decide)] at iht
        exact iht
    · rw [if_neg hwsa, iht]

/-- `dropWhile` is the identity when the head fails the predicate. -/
theorem dropWhile_eq_self_of_head {p : Char → Bool} {m : List Char}
    (h : ∀ c, m.head? = some c → p c = false) : m.dropWhile p = m := by
  cases m with
  | nil => rfl
  | cons a t =>
    have ha := h a rfl
    rw [List.dropWhile_cons, if_neg (by rw [ha]; decide)]

/-- `trimWs` is the identity on strings with non-whitespace edges. -/
theorem trimWs_id {m : List Char}
    (hh : ∀ c, m.head? = some c → isJsWs c = false)
    (hl : ∀ c, m.getLast? = some c → isJsWs c = false) : trimWs m = m := by
  rw [trimWs, dropWhile_eq_self_of_head hh]
  have hrev : ∀ c, m.reverse.head? = some c → isJsWs c = false := by
    intro c hc
    rw [List.head?_reverse] at hc
    exact hl c hc
  rw [dropWhile_eq_self_of_head hrev, List.reverse_reverse]

/-- The head of a trimmed string is not whitespace. -/
theorem trimWs_head {l : List Char} :
    ∀ c, (trimWs l).head? = some c → isJsWs c = false := by
  intro c hc
  rw [trimWs, List.head?_reverse] at hc
  obtain ⟨pre, hpre⟩ := dropWhile_decomp isJsWs (l.dropWhile isJsWs).reverse
  have hz : (l.dropWhile isJsWs).reverse.dropWhile isJsWs ≠ [] := by
    intro h0
    rw [h0] at hc
    simp at hc
  have hy : (l.dropWhile isJsWs).reverse.getLast? = some c := by
    rw [hpre, List.getLast?_append_of_ne_nil pre hz]
    exact hc
  rw [List.getLast?_reverse] at hy
  exact head?_dropWhile_false hy

/-- The last character of a trimmed string is not whitespace. -/
theorem trimWs_last {l : List Char} :
    ∀ c, (trimWs l).getLast? = some c → isJsWs c = false := by
  intro c hc
  rw [trimWs, List.getLast?_reverse] at hc
  exact head?_dropWhile_false hc

/-- On a normalized string (whitespace is single non-adjacent spaces, no
`>` space `<` triple) the tag-gap scan is the identity; length-indexed for
the two-deep induction. -/
theorem removeTagGapsGo_id_aux :
    ∀ n : Nat, ∀ m : List Char, m.length ≤ n → wsOnlySpace m → noAdjWs m = true →
      (noWsGapTriple m = true → removeTagGapsGo none m = m)
      ∧ (noWsGapTriple ('>' :: m) = true → removeTagGapsGo (some []) m = m) := by
  intro n
  induction n with
  | zero =>
    intro m hlen _ _
    have hm : m = [] := List.length_eq_zero.mp (Nat.le_zero.mp hlen)
    subst hm
    exact ⟨fun _ => rfl, fun _ => rfl⟩
  | succ n ihn =>
    intro m hlen hws hadj
    cases m with
    | nil => exact ⟨fun _ => rfl, fun _ => rfl⟩
    | cons c t =>
      have hlent : t.length ≤ n := by
        rw [List.length_cons] at hlen
        omega
      have hwst : wsOnlySpace t := fun x hx hw => hws x (List.mem_cons_of_mem c hx) hw
      have hadjt : noAdjWs t = true := noAdjWs_tail hadj
      constructor
      · intro hT
        rw [removeTagGapsGo]
        by_cases hgt : c = '>'
        · rw [if_pos hgt]
          have := (ihn t hlent hwst hadjt).2 (by rw [← hgt]; exact hT)
          rw [this]
        · rw [if_neg hgt]
          have := (ihn t hlent hwst hadjt).1 (noWsGapTriple_tail hT)
          rw [this]
      · intro hT
        rw [removeTagGapsGo]
        by_cases hwsc : isJsWs c = true
        · have hc : c = ' ' := hws c (List.mem_cons_self c t) hwsc
          rw [if_pos hwsc]
          cases t with
          | nil => rfl
          | cons d t2 =>
            have hwsd : isJsWs d = false := by
              rw [hc, noAdjWs_cons₂, Bool.and_eq_true] at hadj
              have h1 := hadj.1
              rw [(by decide : isJsWs ' ' = true), Bool.true_and, Bool.not_eq_true'] at h1
              exact h1
            have hlent2 : t2.length ≤ n := by
              rw [List.length_cons, List.length_cons] at hlen
              omega
            have hwst2 : wsOnlySpace t2 :=
              fun x hx hw => hwst x (List.mem_cons_of_mem d hx) hw
            have hadjt2 : noAdjWs t2 = true := noAdjWs_tail hadjt
            rw [removeTagGapsGo, if_neg (by rw [hwsd]; decide)]
            by_cases hdlt : d = '<'
            · exfalso
              rw [hc, hdlt, noWsGapTriple_cons₃] at hT
              simp [(by decide : isJsWs ' ' = true)] at hT
            · rw [if_neg hdlt]
              by_cases hdgt : d = '>'
              · rw [if_pos hdgt]
                have hT2 : noWsGapTriple ('>' :: t2) = true := by
                  have h3 := noWsGapTriple_tail hT
                  rw [noWsGapTriple_cons_ne_gt (by rw [hc]; decide) (d :: t2)] at h3
                  rw [← hdgt]
                  exact h3
                have := (ihn t2 hlent2 hwst2 hadjt2).2 hT2
                rw [this, hdgt]
                simp
              · rw [if_neg hdgt]
                have hT2 : noWsGapTriple t2 = true :=
                  noWsGapTriple_tail (noWsGapTriple_tail (noWsGapTriple_tail hT))
                have := (ihn t2 hlent2 hwst2 hadjt2).1 hT2
                rw [this]
                simp
        · rw [if_neg hwsc]
          by_cases hlt : c = '<'
          · rw [if_pos hlt]
            have := (ihn t hlent hwst hadjt).1
              (noWsGapTriple_tail (noWsGapTriple_tail hT))
            rw [this, hlt]
          · rw [if_neg hlt]
            by_cases hgt : c = '>'
            · rw [if_pos hgt]
              have hT2 : noWsGapTriple ('>' :: t) = true := by
                rw [← hgt]
                exact noWsGapTriple_tail hT
              have := (ihn t hlent hwst hadjt).2 hT2
              rw [this]
              rw [hgt]
              rfl
            · rw [if_neg hgt]
              have := (ihn t hlent hwst hadjt).1
                (noWsGapTriple_tail (noWsGapTriple_tail hT))
              rw [this]
              rfl

/-- The tag-gap scan is the identity on normalized strings. -/
theorem removeTagGaps_id {m : List Char} (hws : wsOnlySpace m)
    (hadj : noAdjWs m = true) (hT : noWsGapTriple m = true) :
    removeTagGaps m = m :=
  (removeTagGapsGo_id_aux m.length m (Nat.le_refl _) hws hadj).1 hT

/-! ### Claim C8, assembled -/

/-- Claim C8 (confirmed): for every input string, the compression stage
(remove whitespace between adjacent tags, collapse remaining whitespace runs
to a single space, trim) produces output containing no newline characters,
and the stage is idempotent: applying it twice equals applying it once. -/
theorem compress_no_newline_and_idempotent (l : List Char) :
    '\n' ∉ compressHtml l ∧ compressHtml (compressHtml l) = compressHtml l := by
  constructor
  · intro hmem
    rw [compressHtml] at hmem
    have h2 := mem_trimWs hmem
    rcases mem_collapseWsGo _ _ h2 with h3 | h3
    · exact absurd h3 (by decide)
    · exact absurd h3 (by decide)
  · have hw_ws : wsOnlySpace (compressHtml l) := by
      intro c hc hwsc
      exact wsOnlySpace_collapseWsGo (removeTagGaps l) false c (mem_trimWs hc) hwsc
    have hv_adj : noAdjWs (collapseWs (removeTagGaps l)) = true :=
      noAdjWs_collapseWsGo (removeTagGaps l) false
    have hw_adj : noAdjWs (compressHtml l) = true := by
      obtain ⟨t, ht⟩ := trimWs_decomp (collapseWs (removeTagGaps l))
      have hd : noAdjWs ((collapseWs (removeTagGaps l)).dropWhile isJsWs) = true :=
        noAdjWs_dropWhile isJsWs _ hv_adj
      rw [ht] at hd
      exact noAdjWs_append_left hd
    have hv_tri : noWsGapTriple (collapseWs (removeTagGaps l)) = true :=
      noWsGapTriple_collapseWsGo (removeTagGaps l) false
        (removeTagGapsGo_invariant l).2
    have hw_tri : noWsGapTriple (compressHtml l) = true := by
      obtain ⟨t, ht⟩ := trimWs_decomp (collapseWs (removeTagGaps l))
      have hd : noWsGapTriple ((collapseWs (removeTagGaps l)).dropWhile isJsWs) = true :=
        noWsGapTriple_dropWhile isJsWs _ hv_tri
      rw [ht] at hd
      exact noWsGapTriple_append_left hd
    have h1 : removeTagGaps (compressHtml l) = compressHtml l :=
      removeTagGaps_id hw_ws hw_adj hw_tri
    have h2 : collapseWs (compressHtml l) = compressHtml l :=
      collapseWsGo_id (compressHtml l) hw_ws hw_adj
    have h3 : trimWs (compressHtml l) = compressHtml l :=
      trimWs_id trimWs_head trimWs_last
    calc compressHtml (compressHtml l)
        = trimWs (collapseWs (removeTagGaps (compressHtml l))) := rfl
      _ = trimWs (collapseWs (compressHtml l)) := by rw [h1]
      _ = trimWs (compressHtml l) := by rw [h2]
      _ = compressHtml l := h3

end PlaywrightMcp
